import Mathlib

/-!
Verification development for the Tufty 2040 badge application
(`src/tufty-cpp/main.cpp`).

The embedding below translates the program's pure computational core into
Lean definitions:

* the linear-congruential pseudo-random generator `fast_rand`;
* the Game of Life engine (`calculate_generation`, `mark_changes`,
  `init_life_grid`, the double-buffer stepping of `run_game_of_life`);
* the image-catalog scan `scan_images`;
* the procedural pattern renderer `draw_pattern` (emitting the drawing
  commands issued to the display collaborator);
* the main loop's next-image selection (the do-while retry loop guarded by
  `image_count > 1`), with a fuel parameter standing for the unbounded
  retries of the C loop.

Machine integers are modelled as `Nat` with explicit `% 2 ^ 32` where the
C code relies on `uint32_t` wraparound.  Grids are total functions from the
flat cell index (`x * LIFE_Y + y`, exactly the C indexing) to the stored
byte.
-/

/-! ### Pseudo-random generator (main.cpp lines 91-96) -/

/-- One update of the 32-bit LCG state:
`rand_seed = rand_seed * 1103515245 + 12345` with `uint32_t` wraparound. -/
def lcg (s : Nat) : Nat := (s * 1103515245 + 12345) % 4294967296

/-- `fast_rand()` : advances `rand_seed` by `lcg` and returns
`(rand_seed >> 16) & 0x7FFF`.  Modelled state-passing style: the first
component is the new seed, the second the returned value. -/
def fast_rand (s : Nat) : Nat × Nat :=
  (lcg s, (lcg s >>> 16) &&& 0x7FFF)

/-- Geometric partial sum `1 + A + A^2 + ... + A^(n-1)` for the LCG
multiplier `A = 1103515245`; governs the period of the generator. -/
def lcgSum : Nat → Nat
  | 0 => 0
  | n + 1 => 1 + 1103515245 * lcgSum n

/-! ### Game of Life engine (main.cpp lines 68-77 and 258-385) -/

def LIFE_X : Nat := 106
def LIFE_Y : Nat := 80
def LIFE_FRAMES : Nat := 500
def INITIAL_DOTS : Nat := 2000

/-- A generation buffer: flat cell index to stored byte
(`0` dead, `1` alive, `2` just died). -/
abbrev Grid := Nat → Nat

/-- The flat index used throughout the C code: `x * LIFE_Y + y`. -/
def gidx (x y : Nat) : Nat := x * LIFE_Y + y

/-- Neighbor count of `calculate_generation`: each of the 8 adjacent cells
counts only when its stored value is exactly `1` (alive);
value `2` (just died) does not count. -/
def neighbors (g : Grid) (x y : Nat) : Nat :=
  (if g (gidx (x - 1) (y - 1)) = 1 then 1 else 0) +
  (if g (gidx (x - 1) y) = 1 then 1 else 0) +
  (if g (gidx (x - 1) (y + 1)) = 1 then 1 else 0) +
  (if g (gidx x (y - 1)) = 1 then 1 else 0) +
  (if g (gidx x (y + 1)) = 1 then 1 else 0) +
  (if g (gidx (x + 1) (y - 1)) = 1 then 1 else 0) +
  (if g (gidx (x + 1) y) = 1 then 1 else 0) +
  (if g (gidx (x + 1) (y + 1)) = 1 then 1 else 0)

/-- `calculate_generation(fnow, fnext)`: the doubly nested loop writes every
interior cell (`1 ≤ x < LIFE_X - 1`, `1 ≤ y < LIFE_Y - 1`) of the next
buffer; positions outside the loop range keep the next buffer's old value.
The rule is the C conditional: an alive cell survives on 2-3 neighbors
(else byte `2`), any other cell is born on exactly 3 neighbors (else `0`). -/
def calculate_generation (grid_now grid_next : Grid) : Grid :=
  fun i =>
    let x := i / LIFE_Y
    let y := i % LIFE_Y
    if 1 ≤ x ∧ x < LIFE_X - 1 ∧ 1 ≤ y ∧ y < LIFE_Y - 1 then
      let n := neighbors grid_now x y
      if grid_now i = 1 then (if 2 ≤ n ∧ n ≤ 3 then 1 else 2)
      else (if n = 3 then 1 else 0)
    else grid_next i

/-- `mark_changes(fnow, fnext)`:
`change_mask[i] = (grid_now[i] != grid_next[i]) ? grid_next[i] : 255`. -/
def mark_changes (grid_now grid_next : Grid) : Nat → Nat :=
  fun i => if grid_now i ≠ grid_next i then grid_next i else 255

/-- The engine's mutable state: the two generation buffers
`lifegrid[0]`, `lifegrid[1]` and the index `fnow` of the current one. -/
structure LifeState where
  g0 : Grid
  g1 : Grid
  fnow : Nat

/-- `lifegrid[b]`. -/
def bufs (s : LifeState) (b : Nat) : Grid :=
  if b = 0 then s.g0 else s.g1

/-- The buffer currently on screen, `lifegrid[fnow]`. -/
def curGrid (s : LifeState) : Grid := bufs s s.fnow

/-- The freshly computed generation, `calculate_generation(fnow, fnext)`
with `fnext = 1 - fnow`. -/
def nextGrid (s : LifeState) : Grid :=
  calculate_generation (curGrid s) (bufs s (1 - s.fnow))

/-- The change mask produced for this generation by `mark_changes`. -/
def stepMask (s : LifeState) : Nat → Nat :=
  mark_changes (curGrid s) (nextGrid s)

/-- One iteration of the `run_game_of_life` loop body:
compute the next generation into buffer `fnext = 1 - fnow`,
then swap roles (`fnow = fnext`). -/
def stepLife (s : LifeState) : LifeState :=
  let fnext := 1 - s.fnow
  let nxt := calculate_generation (bufs s s.fnow) (bufs s fnext)
  if fnext = 0 then ⟨nxt, s.g1, fnext⟩ else ⟨s.g0, nxt, fnext⟩

/-- Array store `g[p] = 1` on a functional grid. -/
def gridStore (g : Grid) (p : Nat) : Grid :=
  fun j => if j = p then 1 else g j

/-- The all-dead buffer produced by `memset(..., 0, ...)`. -/
def zeroGrid : Grid := fun _ => 0

/-- The sequence of cell indices written by the seeding loop of
`init_life_grid`: for each of the `INITIAL_DOTS` iterations,
`x = 1 + fast_rand() % (LIFE_X - 2)` then `y = 1 + fast_rand() % (LIFE_Y - 2)`,
threading the generator state. -/
def seedDrawList : Nat → Nat → List Nat
  | 0, _ => []
  | k + 1, s =>
    let p1 := fast_rand s
    let x := 1 + p1.2 % (LIFE_X - 2)
    let p2 := fast_rand p1.1
    let y := 1 + p2.2 % (LIFE_Y - 2)
    gidx x y :: seedDrawList k p2.1

/-- The result of the seeding loop: the stores `lifegrid[0][idx] = 1` are
the fold of `gridStore` over the drawn indices, starting from the buffer
cleared by `memset`. -/
def seededGrid (seed : Nat) : Grid :=
  (seedDrawList INITIAL_DOTS seed).foldl gridStore zeroGrid

/-- `init_life_grid()`: both buffers are cleared to dead, then the seeding
loop sets the drawn cells of `lifegrid[0]` to alive.
`seed` is the `millis()` reading used to reseed the generator. -/
def init_life_grid (seed : Nat) : LifeState :=
  { g0 := seededGrid seed
    g1 := zeroGrid
    fnow := 0 }

/-- The engine state after the reset and `n` generation steps. -/
def lifeAt (seed n : Nat) : LifeState :=
  stepLife^[n] (init_life_grid seed)

/-- A border cell of the grid: `x = 0`, `x = LIFE_X - 1`, `y = 0`
or `y = LIFE_Y - 1`. -/
def isBorder (i : Nat) : Prop :=
  i / LIFE_Y = 0 ∨ i / LIFE_Y = LIFE_X - 1 ∨ i % LIFE_Y = 0 ∨ i % LIFE_Y = LIFE_Y - 1

instance (i : Nat) : Decidable (isBorder i) := by
  unfold isBorder; infer_instance

/-- Number of alive cells of `lifegrid[0]` right after `init_life_grid`. -/
def aliveCount (seed : Nat) : Nat :=
  ((Finset.range (LIFE_X * LIFE_Y)).filter
    (fun i => (init_life_grid seed).g0 i = 1)).card

/-- The remaining frames of `run_game_of_life` (fuel = `LIFE_FRAMES`):
each iteration steps the engine, then button C (sampled by the script
`btnC`, indexed by remaining fuel) may break out early. -/
def runLifeAux : Nat → (Nat → Bool) → LifeState → LifeState
  | 0, _, s => s
  | f + 1, btnC, s =>
    let s2 := stepLife s
    if btnC f then s2 else runLifeAux f btnC s2

/-- `run_game_of_life()`: reset the engine, then run up to `LIFE_FRAMES`
generations, stopping early when button C is pressed. -/
def run_game_of_life (golSeed : Nat) (btnC : Nat → Bool) : LifeState :=
  runLifeAux LIFE_FRAMES btnC (init_life_grid golSeed)

/-! ### Spec-side cell model (spec section 3, used for claim C1) -/

/-- The cell states named by the spec. -/
inductive CellState where
  | Dead
  | Alive
  | JustDied
deriving DecidableEq

/-- Reading of a stored byte as a spec cell state
(`0` dead, `1` alive, `2` just died). -/
def decodeCell (v : Nat) : CellState :=
  if v = 1 then CellState.Alive
  else if v = 2 then CellState.JustDied
  else CellState.Dead

/-- The standard rule table as worded by the spec: an `Alive` cell stays
`Alive` on a neighbor count of 2 or 3 and otherwise becomes `JustDied`;
a `Dead` or `JustDied` cell becomes `Alive` on exactly 3 and otherwise
`Dead`. -/
def specNextState : CellState → Nat → CellState
  | CellState.Alive, n =>
    if n = 2 ∨ n = 3 then CellState.Alive else CellState.JustDied
  | CellState.Dead, n =>
    if n = 3 then CellState.Alive else CellState.Dead
  | CellState.JustDied, n =>
    if n = 3 then CellState.Alive else CellState.Dead

/-- Spec-side neighbor count: how many of the 8 adjacent cells hold a byte
whose decoded state equals `Alive` (`JustDied` does not count). -/
def aliveNeighborCount (g : Grid) (x y : Nat) : Nat :=
  (if decodeCell (g (gidx (x - 1) (y - 1))) = CellState.Alive then 1 else 0) +
  (if decodeCell (g (gidx (x - 1) y)) = CellState.Alive then 1 else 0) +
  (if decodeCell (g (gidx (x - 1) (y + 1))) = CellState.Alive then 1 else 0) +
  (if decodeCell (g (gidx x (y - 1))) = CellState.Alive then 1 else 0) +
  (if decodeCell (g (gidx x (y + 1))) = CellState.Alive then 1 else 0) +
  (if decodeCell (g (gidx (x + 1) (y - 1))) = CellState.Alive then 1 else 0) +
  (if decodeCell (g (gidx (x + 1) y)) = CellState.Alive then 1 else 0) +
  (if decodeCell (g (gidx (x + 1) (y + 1))) = CellState.Alive then 1 else 0)

/-! ### Image catalog scan (main.cpp lines 217-252) -/

def MAX_IMAGES : Nat := 200

/-- One entry of the `pics/` directory listing: the file name as its byte
string, and the `LFS_TYPE_DIR` flag. -/
structure DirEntry where
  name : List Nat
  isDir : Bool

/-- POSIX `tolower` on a byte (C locale): fold `A`-`Z` to `a`-`z`. -/
def asciiLower (b : Nat) : Nat :=
  if 65 ≤ b ∧ b ≤ 90 then b + 32 else b

/-- Bytewise lowercase of a name, the effect of comparing with
`strcasecmp`. -/
def lowerName (l : List Nat) : List Nat := l.map asciiLower

/-- The bytes of `".png"`. -/
def pngSuffix : List Nat := [46, 112, 110, 103]

/-- The bytes of `"tufty-name.png"`. -/
def tuftyName : List Nat :=
  [116, 117, 102, 116, 121, 45, 110, 97, 109, 101, 46, 112, 110, 103]

/-- The body of the `scan_images` loop: an entry is added exactly when all
the C guards pass, in source order: name does not start with `'.'`, not a
directory, `strlen >= 5`, the last four bytes compare case-insensitively
equal to `".png"`, and the whole name is not case-insensitively
`"tufty-name.png"`. -/
def keepEntry (e : DirEntry) : Bool :=
  if e.name.head? = some 46 then false
  else if e.isDir then false
  else if e.name.length < 5 then false
  else if lowerName (e.name.drop (e.name.length - 4)) ≠ pngSuffix then false
  else if lowerName e.name = tuftyName then false
  else true

/-- The scan loop: entries are consumed while `count < MAX_IMAGES`;
each kept entry increments `count`. -/
def scanCount : Nat → List DirEntry → Nat
  | count, [] => count
  | count, e :: rest =>
    if count < MAX_IMAGES then
      if keepEntry e then scanCount (count + 1) rest else scanCount count rest
    else count

/-- `scan_images()`: `none` models `pico_dir_open("pics") < 0`
(the directory cannot be opened), in which case the function returns 0. -/
def scan_images : Option (List DirEntry) → Nat
  | none => 0
  | some listing => scanCount 0 listing

/-- The filter worded by claim C7: non-directory entries whose name
case-insensitively ends in `".png"` and is not case-insensitively
`"tufty-name.png"`.  (No condition on a leading dot.) -/
def keepClaim (e : DirEntry) : Bool :=
  if e.isDir then false
  else if ¬ pngSuffix <:+ lowerName e.name then false
  else if lowerName e.name = tuftyName then false
  else true

/-- The amended filter: as `keepClaim`, plus the exclusion of names
starting with the byte `'.'` that the code applies to skip `.`/`..` and
hidden files. -/
def keepAmended (e : DirEntry) : Bool :=
  if e.name.head? = some 46 then false
  else if e.isDir then false
  else if ¬ pngSuffix <:+ lowerName e.name then false
  else if lowerName e.name = tuftyName then false
  else true

/-! ### Procedural pattern renderer (main.cpp lines 391-470) -/

/-- The pixel state of the display surface; `draw_pattern` may read it in
principle (it is a mutable global in the C code) but never does. -/
abbrev FrameBuffer := Nat → Nat → Nat

/-- The drawing commands `draw_pattern` issues to the graphics
collaborator.  `setPen r g b` stands for
`graphics.set_pen(graphics.create_pen(r, g, b))`. -/
inductive DrawCmd where
  | setPen (r g b : Nat)
  | clear
  | rect (x y w h : Nat)
  | circle (x y radius : Nat)
  | text (s : String) (x y : Nat)
deriving DecidableEq

/-- `draw_pattern(pattern_num)`: six deterministic styles selected by
`pattern_num % 6`, each a straight-line translation of the C loops; the
framebuffer argument is never consulted.  The trailing label text is
always drawn with the white pen. -/
def draw_pattern (_fb : FrameBuffer) (pattern_num : Nat) : List DrawCmd :=
  let style := pattern_num % 6
  let body : List DrawCmd :=
    if style = 0 then
      (List.range 240).flatMap fun y =>
        let r := (y * 255) / 240
        [DrawCmd.setPen r ((pattern_num * 37 + y) % 255) (255 - r),
         DrawCmd.rect 0 y 320 1]
    else if style = 1 then
      [DrawCmd.setPen 20 20 60, DrawCmd.clear] ++
      ((List.range 8).flatMap fun i =>
        [DrawCmd.setPen ((i * 30 + pattern_num * 20) % 255)
           ((100 + i * 20) % 255) ((200 - i * 15) % 255),
         DrawCmd.circle (40 + (i % 4) * 80) (60 + (i / 4) * 120) (30 + i * 5)])
    else if style = 2 then
      (List.range 16).flatMap fun xi =>
        (List.range 12).flatMap fun yi =>
          let x := 20 * xi
          let y := 20 * yi
          [DrawCmd.setPen ((x * y / 100 + pattern_num * 10) % 255)
             ((x + pattern_num * 5) % 255) ((y + pattern_num * 7) % 255),
           DrawCmd.rect (x + 2) (y + 2) 16 16]
    else if style = 3 then
      (List.range 40).flatMap fun xi =>
        let x := 8 * xi
        [DrawCmd.setPen (((x / 8) * 17 + pattern_num * 30) % 255)
           ((128 + pattern_num * 5) % 255) ((200 - (x / 8) * 5) % 255),
         DrawCmd.rect x 0 8 240]
    else if style = 4 then
      (List.range 15).flatMap fun j =>
        let ring := 120 - 8 * j
        [DrawCmd.setPen ((ring * 2 + pattern_num * 20) % 255)
           ((255 - ring * 2 + pattern_num * 10) % 255)
           ((128 + pattern_num * 15) % 255),
         DrawCmd.circle 160 120 ring]
    else
      (List.range 10).flatMap fun xi =>
        (List.range 8).flatMap fun yi =>
          let x := 32 * xi
          let y := 32 * yi
          if (x / 32 + y / 32) % 2 = 0 then
            [DrawCmd.setPen ((200 + pattern_num * 3) % 255)
               ((180 + pattern_num * 7) % 255) ((160 + pattern_num * 11) % 255),
             DrawCmd.rect x y 32 32]
          else
            [DrawCmd.setPen ((50 + pattern_num * 5) % 255)
               ((30 + pattern_num * 9) % 255) ((80 + pattern_num * 13) % 255),
             DrawCmd.rect x y 32 32]
  body ++
    [DrawCmd.setPen 255 255 255,
     DrawCmd.text ("Pattern " ++ toString pattern_num) 10 220]

/-! ### Mode machine slice and next-image selection (main.cpp lines 596-669) -/

/-- The spec's modes. -/
inductive Mode where
  | Slideshow
  | NameBadge
  | GameOfLife
deriving DecidableEq

/-- The three buttons the core uses. -/
inductive Button where
  | A
  | B
  | C
deriving DecidableEq

/-- The mode entered when a button press is seen inside the slideshow
wait loop: A advances the slideshow, B shows the name badge, C enters the
Game of Life. -/
def slideshow_dispatch : Button → Mode
  | Button.A => Mode.Slideshow
  | Button.B => Mode.NameBadge
  | Button.C => Mode.GameOfLife

/-- The `do { new_index = fast_rand() % image_count; }
while (new_index == image_index)` retry loop, given `fuel` attempts; the C
loop is unbounded, so `none` models divergence. On success returns the new
index and the generator state. -/
def pickNextAux : Nat → Nat → Nat → Nat → Option (Nat × Nat)
  | 0, _, _, _ => none
  | fuel + 1, seed, count, current =>
    let p := fast_rand seed
    if p.2 % count = current then pickNextAux fuel p.1 count current
    else some (p.2 % count, p.1)

/-- Enough fuel to cover a full period of the 32-bit LCG. -/
def PICK_FUEL : Nat := 4294967297

/-- The "pick random next image" block at the bottom of the main loop:
with more than one image, retry-draw until a different index is found;
with no images, pick a random pattern index in `[0, 72)`;
with exactly one image, the index is left alone.
Returns the new `(image_index, rand_seed)`. -/
def advance_image (count index seed : Nat) : Option (Nat × Nat) :=
  if 1 < count then pickNextAux PICK_FUEL seed count index
  else if count = 0 then some ((fast_rand seed).2 % 72, (fast_rand seed).1)
  else some (index, seed)

/-- One press-C episode starting from the slideshow: the mode entered by
the press, the engine state when `run_game_of_life` returns (re-seeded on
entry), the mode control returns to, and the index/seed produced by the
subsequent bottom-of-loop image advance. -/
def lifeToggleSession (count index seedMain golSeed : Nat)
    (btnC : Nat → Bool) : Mode × LifeState × Mode × Option (Nat × Nat) :=
  (slideshow_dispatch Button.C,
   run_game_of_life golSeed btnC,
   Mode.Slideshow,
   advance_image count index seedMain)

/-! ### Basic facts about the embedding -/

theorem lcg_lt (s : Nat) : lcg s < 4294967296 :=
  Nat.mod_lt _ (by norm_num)

theorem decodeCell_eq_alive_iff (v : Nat) : decodeCell v = CellState.Alive ↔ v = 1 := by
  unfold decodeCell
  by_cases h1 : v = 1
  · simp [h1]
  · by_cases h2 : v = 2 <;> simp [h1, h2]

theorem aliveNeighborCount_eq_neighbors (g : Grid) (x y : Nat) :
    aliveNeighborCount g x y = neighbors g x y := by
  simp only [aliveNeighborCount, neighbors, decodeCell_eq_alive_iff]

theorem specNextState_alive (n : Nat) :
    specNextState CellState.Alive n =
      if n = 2 ∨ n = 3 then CellState.Alive else CellState.JustDied := rfl

theorem specNextState_dead (n : Nat) :
    specNextState CellState.Dead n =
      if n = 3 then CellState.Alive else CellState.Dead := rfl

theorem specNextState_justdied (n : Nat) :
    specNextState CellState.JustDied n =
      if n = 3 then CellState.Alive else CellState.Dead := rfl

theorem gidx_div (x y : Nat) (hy : y < LIFE_Y) : gidx x y / LIFE_Y = x := by
  unfold gidx LIFE_Y at *
  omega

theorem gidx_mod (x y : Nat) (hy : y < LIFE_Y) : gidx x y % LIFE_Y = y := by
  unfold gidx LIFE_Y at *
  omega

theorem calc_not_interior (gn gx : Grid) (i : Nat)
    (h : ¬ (1 ≤ i / LIFE_Y ∧ i / LIFE_Y < LIFE_X - 1 ∧
            1 ≤ i % LIFE_Y ∧ i % LIFE_Y < LIFE_Y - 1)) :
    calculate_generation gn gx i = gx i := by
  simp only [calculate_generation]
  rw [if_neg h]

theorem calc_le_two (gn gx : Grid) (i : Nat) (hgx : gx i ≤ 2) :
    calculate_generation gn gx i ≤ 2 := by
  simp only [calculate_generation]
  split
  · split
    · split <;> omega
    · split <;> omega
  · exact hgx

/-- C1: for every interior cell (1 ≤ x ≤ 104, 1 ≤ y ≤ 78) and every
configuration of its 8 neighbors in the current buffer, one step of the
engine writes the standard rule's result to the next buffer: a currently
alive cell stays alive iff its count of alive neighbors (just-died cells
do not count) is 2 or 3 and otherwise becomes just-died; a currently dead
or just-died cell becomes alive iff that count is exactly 3 and otherwise
becomes dead. -/
theorem calculate_generation_matches_standard_rule
    (gnow gnext : Grid) (x y : Nat)
    (hx1 : 1 ≤ x) (hx2 : x ≤ 104) (hy1 : 1 ≤ y) (hy2 : y ≤ 78) :
    decodeCell (calculate_generation gnow gnext (gidx x y)) =
      specNextState (decodeCell (gnow (gidx x y))) (aliveNeighborCount gnow x y) := by
  have hy80 : y < LIFE_Y := by unfold LIFE_Y; omega
  have hdiv : gidx x y / LIFE_Y = x := gidx_div x y hy80
  have hmod : gidx x y % LIFE_Y = y := gidx_mod x y hy80
  simp only [calculate_generation, hdiv, hmod, aliveNeighborCount_eq_neighbors]
  rw [if_pos (by unfold LIFE_X LIFE_Y; omega)]
  by_cases h1 : gnow (gidx x y) = 1
  · rw [if_pos h1, h1]
    show decodeCell _ = specNextState CellState.Alive _
    rw [specNextState_alive]
    by_cases hn : 2 ≤ neighbors gnow x y ∧ neighbors gnow x y ≤ 3
    · rw [if_pos hn, if_pos (by omega)]
      rfl
    · rw [if_neg hn, if_neg (by omega)]
      rfl
  · rw [if_neg h1]
    have hdec : decodeCell (gnow (gidx x y)) = CellState.Dead ∨
        decodeCell (gnow (gidx x y)) = CellState.JustDied := by
      unfold decodeCell
      rw [if_neg h1]
      split
      · exact Or.inr rfl
      · exact Or.inl rfl
    by_cases hn : neighbors gnow x y = 3
    · rw [if_pos hn]
      rcases hdec with hd | hd <;> rw [hd] <;>
        simp only [specNextState_dead, specNextState_justdied] <;>
        rw [if_pos hn] <;> rfl
    · rw [if_neg hn]
      rcases hdec with hd | hd <;> rw [hd] <;>
        simp only [specNextState_dead, specNextState_justdied] <;>
        rw [if_neg hn] <;> rfl

/-- Witness for C1 at a concrete interior cell of an all-dead grid. -/
theorem calculate_generation_matches_standard_rule_witness :
    1 ≤ 1 ∧ 1 ≤ 104 ∧ 1 ≤ 1 ∧ 1 ≤ 78 ∧
    decodeCell (calculate_generation (fun _ => 0) (fun _ => 0) (gidx 1 1)) =
      specNextState (decodeCell ((fun (_ : Nat) => 0) (gidx 1 1)))
        (aliveNeighborCount (fun _ => 0) 1 1) :=
  ⟨by decide, by decide, by decide, by decide,
   calculate_generation_matches_standard_rule (fun _ => 0) (fun _ => 0) 1 1
     (by decide) (by decide) (by decide) (by decide)⟩

/-- C4: a just-died interior cell is a one-generation transient: whatever
the rest of the buffers hold, the step writes dead or alive (never
just-died) at that cell. -/
theorem justdied_is_transient (gnow gnext : Grid) (x y : Nat)
    (hx1 : 1 ≤ x) (hx2 : x ≤ 104) (hy1 : 1 ≤ y) (hy2 : y ≤ 78)
    (hjd : gnow (gidx x y) = 2) :
    calculate_generation gnow gnext (gidx x y) = 0 ∨
      calculate_generation gnow gnext (gidx x y) = 1 := by
  have hy80 : y < LIFE_Y := by unfold LIFE_Y; omega
  simp only [calculate_generation, gidx_div x y hy80, gidx_mod x y hy80]
  rw [if_pos (by unfold LIFE_X LIFE_Y; omega)]
  rw [if_neg (by omega)]
  split
  · exact Or.inr rfl
  · exact Or.inl rfl

/-- Witness for C4 at a concrete just-died cell. -/
theorem justdied_is_transient_witness :
    (fun (_ : Nat) => 2) (gidx 1 1) = 2 ∧
    (calculate_generation (fun _ => 2) (fun _ => 0) (gidx 1 1) = 0 ∨
      calculate_generation (fun _ => 2) (fun _ => 0) (gidx 1 1) = 1) :=
  ⟨by decide,
   justdied_is_transient (fun _ => 2) (fun _ => 0) 1 1
     (by decide) (by decide) (by decide) (by decide) (by decide)⟩

/-- C9: the pattern renderer is a deterministic, side-effect-free function
of its integer index: the command list it emits does not depend on the
ambient display state, so two renders with equal index produce identical
output (in particular for any index in [0, 72)). -/
theorem draw_pattern_deterministic (fb1 fb2 : FrameBuffer) (k : Nat) :
    draw_pattern fb1 k = draw_pattern fb2 k := rfl

/-- C10: one `fast_rand()` call updates the seed to
`seed * 1103515245 + 12345` modulo `2^32` and returns
`(new_seed >> 16) & 0x7FFF`, hence every returned value is below
`2^15 = 32768`. -/
theorem fast_rand_spec (s : Nat) :
    (fast_rand s).1 = (s * 1103515245 + 12345) % 2 ^ 32 ∧
    (fast_rand s).2 = ((fast_rand s).1 >>> 16) &&& 0x7FFF ∧
    (fast_rand s).2 < 32768 := by
  refine ⟨by norm_num [fast_rand, lcg], rfl, ?_⟩
  show (lcg s >>> 16) &&& 0x7FFF < 32768
  have h := Nat.and_le_right (n := lcg s >>> 16) (m := 0x7FFF)
  omega

/-! ### The seeded grid and the run invariants -/

theorem foldl_gridStore_apply (l : List Nat) (g : Grid) (i : Nat) :
    (l.foldl gridStore g) i = if i ∈ l then 1 else g i := by
  induction l generalizing g with
  | nil => simp
  | cons a t ih =>
    rw [List.foldl_cons, ih]
    by_cases hit : i ∈ t
    · simp [hit]
    · by_cases hia : i = a <;> simp [hit, hia, gridStore]

theorem seedDrawList_length (k s : Nat) : (seedDrawList k s).length = k := by
  induction k generalizing s with
  | zero => rfl
  | succ k ih => simp [seedDrawList, ih]

theorem seedDrawList_cons (k s : Nat) :
    seedDrawList (k + 1) s =
      gidx (1 + (fast_rand s).2 % (LIFE_X - 2))
        (1 + (fast_rand (fast_rand s).1).2 % (LIFE_Y - 2)) ::
      seedDrawList k (fast_rand (fast_rand s).1).1 := rfl

theorem seedDrawList_mem_interior (k s p : Nat) (hp : p ∈ seedDrawList k s) :
    1 ≤ p / LIFE_Y ∧ p / LIFE_Y ≤ LIFE_X - 2 ∧
    1 ≤ p % LIFE_Y ∧ p % LIFE_Y ≤ LIFE_Y - 2 := by
  induction k generalizing s with
  | zero => simp [seedDrawList] at hp
  | succ k ih =>
    rw [seedDrawList_cons, List.mem_cons] at hp
    rcases hp with h | h
    · subst h
      have hx : (fast_rand s).2 % (LIFE_X - 2) < LIFE_X - 2 :=
        Nat.mod_lt _ (by norm_num [LIFE_X])
      have hy : (fast_rand (fast_rand s).1).2 % (LIFE_Y - 2) < LIFE_Y - 2 :=
        Nat.mod_lt _ (by norm_num [LIFE_Y])
      unfold gidx LIFE_X LIFE_Y at *
      omega
    · exact ih _ h

theorem init_g0_apply (seed i : Nat) :
    (init_life_grid seed).g0 i =
      if i ∈ seedDrawList INITIAL_DOTS seed then 1 else 0 := by
  simp only [init_life_grid]
  simp only [seededGrid]
  rw [foldl_gridStore_apply]
  simp only [zeroGrid]

theorem stepLife_eq (s : LifeState) :
    stepLife s =
      if 1 - s.fnow = 0 then
        ⟨calculate_generation (bufs s s.fnow) (bufs s (1 - s.fnow)),
          s.g1, 1 - s.fnow⟩
      else
        ⟨s.g0, calculate_generation (bufs s s.fnow) (bufs s (1 - s.fnow)),
          1 - s.fnow⟩ := rfl

theorem lifeAt_zero (seed : Nat) : lifeAt seed 0 = init_life_grid seed := rfl

theorem lifeAt_succ (seed n : Nat) :
    lifeAt seed (n + 1) = stepLife (lifeAt seed n) :=
  Function.iterate_succ_apply' _ _ _

/-- Under one engine step, the border region of both buffers is preserved
at dead. -/
theorem stepLife_border (s : LifeState) (i : Nat) (hib : isBorder i)
    (h0 : s.g0 i = 0) (h1 : s.g1 i = 0) :
    (stepLife s).g0 i = 0 ∧ (stepLife s).g1 i = 0 := by
  have hni : ¬ (1 ≤ i / LIFE_Y ∧ i / LIFE_Y < LIFE_X - 1 ∧
      1 ≤ i % LIFE_Y ∧ i % LIFE_Y < LIFE_Y - 1) := by
    unfold isBorder LIFE_X LIFE_Y at *
    omega
  have hbuf : ∀ b, bufs s b i = 0 := by
    intro b
    unfold bufs
    split <;> assumption
  have hcalc : ∀ gn b, calculate_generation gn (bufs s b) i = 0 := by
    intro gn b
    rw [calc_not_interior _ _ _ hni]
    exact hbuf b
  rw [stepLife_eq]
  split
  · exact ⟨hcalc _ _, h1⟩
  · exact ⟨h0, hcalc _ _⟩

/-- Reachable-state invariant: border cells of both buffers are dead at
every generation. -/
theorem life_border_dead (seed n : Nat) :
    ∀ i, isBorder i → (lifeAt seed n).g0 i = 0 ∧ (lifeAt seed n).g1 i = 0 := by
  induction n with
  | zero =>
    intro i hib
    refine ⟨?_, rfl⟩
    rw [lifeAt_zero, init_g0_apply]
    rw [if_neg]
    intro hmem
    have hint := seedDrawList_mem_interior _ _ _ hmem
    unfold isBorder LIFE_X LIFE_Y at *
    omega
  | succ n ih =>
    intro i hib
    rw [lifeAt_succ]
    obtain ⟨h0, h1⟩ := ih i hib
    exact stepLife_border _ i hib h0 h1

/-- Reachable-state invariant: every stored byte of both buffers is at
most 2, i.e. a valid cell state. -/
theorem life_values_le_two (seed n : Nat) :
    ∀ i, (lifeAt seed n).g0 i ≤ 2 ∧ (lifeAt seed n).g1 i ≤ 2 := by
  induction n with
  | zero =>
    intro i
    constructor
    · rw [lifeAt_zero, init_g0_apply]
      split <;> omega
    · show (0 : Nat) ≤ 2
      omega
  | succ n ih =>
    intro i
    rw [lifeAt_succ]
    have hbuf : ∀ b, bufs (lifeAt seed n) b i ≤ 2 := by
      intro b
      unfold bufs
      split
      · exact (ih i).1
      · exact (ih i).2
    rw [stepLife_eq]
    split
    · exact ⟨calc_le_two _ _ _ (hbuf _), (ih i).2⟩
    · exact ⟨(ih i).1, calc_le_two _ _ _ (hbuf _)⟩

/-- C3: starting from the engine's reset and after any number of
generation steps, every border cell of both generation buffers is dead,
and the change mask of the step taken from that state carries the
"unchanged" sentinel 255 at every border cell, so border cells are never
redrawn. -/
theorem border_cells_stay_dead (seed n i : Nat)
    (hi : i < LIFE_X * LIFE_Y) (hib : isBorder i) :
    (lifeAt seed n).g0 i = 0 ∧ (lifeAt seed n).g1 i = 0 ∧
      stepMask (lifeAt seed n) i = 255 := by
  obtain ⟨h0, h1⟩ := life_border_dead seed n i hib
  refine ⟨h0, h1, ?_⟩
  have hni : ¬ (1 ≤ i / LIFE_Y ∧ i / LIFE_Y < LIFE_X - 1 ∧
      1 ≤ i % LIFE_Y ∧ i % LIFE_Y < LIFE_Y - 1) := by
    unfold isBorder LIFE_X LIFE_Y at *
    omega
  have hbuf : ∀ b, bufs (lifeAt seed n) b i = 0 := by
    intro b
    unfold bufs
    split <;> assumption
  unfold stepMask mark_changes curGrid nextGrid
  rw [calc_not_interior _ _ _ hni, hbuf, hbuf]
  simp

/-- Witness for C3 at the concrete border cell 0 of the freshly reset
state with seed 0. -/
theorem border_cells_stay_dead_witness :
    (0 : Nat) < LIFE_X * LIFE_Y ∧ isBorder 0 ∧
    ((lifeAt 0 0).g0 0 = 0 ∧ (lifeAt 0 0).g1 0 = 0 ∧
      stepMask (lifeAt 0 0) 0 = 255) :=
  ⟨by decide, by decide, border_cells_stay_dead 0 0 0 (by decide) (by decide)⟩

/-- C2: after computing a generation from any reachable state, at every
cell index of the grid the change mask differs from the sentinel 255 iff
the next buffer differs from the current buffer there, and whenever it
differs from the sentinel it equals the next buffer's state. -/
theorem mask_soundness_reachable (seed n i : Nat)
    (hi : i < LIFE_X * LIFE_Y) :
    (stepMask (lifeAt seed n) i ≠ 255 ↔
      nextGrid (lifeAt seed n) i ≠ curGrid (lifeAt seed n) i) ∧
    (stepMask (lifeAt seed n) i ≠ 255 →
      stepMask (lifeAt seed n) i = nextGrid (lifeAt seed n) i) := by
  have hnx : nextGrid (lifeAt seed n) i ≤ 2 := by
    unfold nextGrid
    apply calc_le_two
    unfold bufs
    split
    · exact (life_values_le_two seed n i).1
    · exact (life_values_le_two seed n i).2
  have hmask : stepMask (lifeAt seed n) i =
      if curGrid (lifeAt seed n) i ≠ nextGrid (lifeAt seed n) i then
        nextGrid (lifeAt seed n) i
      else 255 := rfl
  by_cases he : curGrid (lifeAt seed n) i = nextGrid (lifeAt seed n) i
  · rw [hmask, if_neg (by simpa using he)]
    constructor
    · constructor
      · intro h
        exact absurd rfl h
      · intro h
        exact absurd he.symm h
    · intro h
      exact absurd rfl h
  · rw [hmask, if_pos he]
    constructor
    · constructor
      · intro _
        exact fun hq => he hq.symm
      · intro _
        omega
    · intro _
      rfl

/-- Witness for C2 at the concrete cell 0 of the freshly reset state with
seed 0. -/
theorem mask_soundness_reachable_witness :
    (0 : Nat) < LIFE_X * LIFE_Y ∧
    ((stepMask (lifeAt 0 0) 0 ≠ 255 ↔
        nextGrid (lifeAt 0 0) 0 ≠ curGrid (lifeAt 0 0) 0) ∧
     (stepMask (lifeAt 0 0) 0 ≠ 255 →
        stepMask (lifeAt 0 0) 0 = nextGrid (lifeAt 0 0) 0)) :=
  ⟨by decide, mask_soundness_reachable 0 0 0 (by decide)⟩

/-! ### The state right after reset (claim C8) -/

theorem alive_filter_eq_toFinset (seed : Nat) :
    (Finset.range (LIFE_X * LIFE_Y)).filter
        (fun i => (init_life_grid seed).g0 i = 1) =
      (seedDrawList INITIAL_DOTS seed).toFinset := by
  ext i
  simp only [Finset.mem_filter, Finset.mem_range, List.mem_toFinset,
    init_g0_apply]
  constructor
  · rintro ⟨-, h⟩
    by_cases hm : i ∈ seedDrawList INITIAL_DOTS seed
    · exact hm
    · rw [if_neg hm] at h
      exact absurd h (by omega)
  · intro hm
    refine ⟨?_, by rw [if_pos hm]⟩
    have hint := seedDrawList_mem_interior _ _ _ hm
    have hd := Nat.div_add_mod i LIFE_Y
    unfold LIFE_X LIFE_Y at *
    omega

/-- C8: immediately after the engine's reset, whatever the random draws
were: the next buffer is entirely dead, the current buffer holds only
dead or alive bytes, every alive cell lies in the interior
(1 ≤ x ≤ 104, 1 ≤ y ≤ 78), and between 1 and 2000 cells are alive
(duplicate draws overwrite, so fewer than 2000 may end up live). -/
theorem init_life_grid_spec (seed : Nat) :
    (∀ i, (init_life_grid seed).g1 i = 0) ∧
    (∀ i, (init_life_grid seed).g0 i = 0 ∨ (init_life_grid seed).g0 i = 1) ∧
    (∀ i, (init_life_grid seed).g0 i = 1 →
      1 ≤ i / LIFE_Y ∧ i / LIFE_Y ≤ LIFE_X - 2 ∧
      1 ≤ i % LIFE_Y ∧ i % LIFE_Y ≤ LIFE_Y - 2) ∧
    1 ≤ aliveCount seed ∧ aliveCount seed ≤ INITIAL_DOTS := by
  refine ⟨fun i => rfl, ?_, ?_, ?_, ?_⟩
  · intro i
    rw [init_g0_apply]
    split
    · exact Or.inr rfl
    · exact Or.inl rfl
  · intro i h1
    rw [init_g0_apply] at h1
    by_cases hm : i ∈ seedDrawList INITIAL_DOTS seed
    · exact seedDrawList_mem_interior _ _ _ hm
    · rw [if_neg hm] at h1
      exact absurd h1 (by omega)
  · show 1 ≤ aliveCount seed
    rw [aliveCount, alive_filter_eq_toFinset]
    rw [Nat.one_le_iff_ne_zero, ← Nat.pos_iff_ne_zero, Finset.card_pos]
    have hlen : (seedDrawList INITIAL_DOTS seed).length = INITIAL_DOTS :=
      seedDrawList_length _ _
    have hne : seedDrawList INITIAL_DOTS seed ≠ [] := by
      intro hnil
      rw [hnil] at hlen
      simp [INITIAL_DOTS] at hlen
    obtain ⟨a, ha⟩ := List.exists_mem_of_ne_nil _ hne
    exact ⟨a, List.mem_toFinset.mpr ha⟩
  · show aliveCount seed ≤ INITIAL_DOTS
    rw [aliveCount, alive_filter_eq_toFinset]
    calc (seedDrawList INITIAL_DOTS seed).toFinset.card
        ≤ (seedDrawList INITIAL_DOTS seed).length := List.toFinset_card_le _
      _ = INITIAL_DOTS := seedDrawList_length _ _

/-- Witness for C8: for seed 0, the first drawn cell (flat index 99,
x = 1, y = 19) is alive and interior, and the alive count is within
bounds. -/
theorem init_life_grid_spec_witness :
    (init_life_grid 0).g0 99 = 1 ∧
    (1 ≤ 99 / LIFE_Y ∧ 99 / LIFE_Y ≤ LIFE_X - 2 ∧
     1 ≤ 99 % LIFE_Y ∧ 99 % LIFE_Y ≤ LIFE_Y - 2) ∧
    1 ≤ aliveCount 0 ∧ aliveCount 0 ≤ INITIAL_DOTS := by
  have h2000 : INITIAL_DOTS = 1999 + 1 := rfl
  have hmem : (99 : Nat) ∈ seedDrawList INITIAL_DOTS 0 := by
    rw [h2000, seedDrawList_cons]
    have hhead : gidx (1 + (fast_rand 0).2 % (LIFE_X - 2))
        (1 + (fast_rand (fast_rand 0).1).2 % (LIFE_Y - 2)) = 99 := by decide
    rw [hhead]
    exact List.mem_cons_self _ _
  have h1 : (init_life_grid 0).g0 99 = 1 := by
    rw [init_g0_apply, if_pos hmem]
  exact ⟨h1, (init_life_grid_spec 0).2.2.1 99 h1,
    (init_life_grid_spec 0).2.2.2.1, (init_life_grid_spec 0).2.2.2.2⟩

/-! ### Catalog scan lemmas (claim C7) -/

theorem asciiLower_eq_dot (b : Nat) (h : asciiLower b = 46) : b = 46 := by
  unfold asciiLower at h
  split at h <;> omega

theorem lowerName_length (l : List Nat) : (lowerName l).length = l.length :=
  List.length_map _ _

theorem drop_eq_iff_suffix (L : List Nat) (h4 : 4 ≤ L.length) :
    L.drop (L.length - 4) = pngSuffix ↔ pngSuffix <:+ L := by
  constructor
  · intro h
    exact ⟨L.take (L.length - 4), by rw [← h]; exact List.take_append_drop _ _⟩
  · rintro ⟨t, ht⟩
    have hlen : t.length + 4 = L.length := by
      have hc := congrArg List.length ht
      simpa [pngSuffix] using hc
    rw [← ht]
    have hd : (t ++ pngSuffix).length - 4 = t.length := by
      simp [pngSuffix]
    rw [hd, List.drop_left]

theorem keepEntry_eq_keepAmended (e : DirEntry) :
    keepEntry e = keepAmended e := by
  unfold keepEntry keepAmended
  by_cases h46 : e.name.head? = some 46
  · rw [if_pos h46, if_pos h46]
  · rw [if_neg h46, if_neg h46]
    by_cases hdir : e.isDir = true
    · rw [if_pos hdir, if_pos hdir]
    · rw [if_neg hdir, if_neg hdir]
      by_cases hlen : e.name.length < 5
      · rw [if_pos hlen]
        have hnosuf : ¬ pngSuffix <:+ lowerName e.name := by
          rintro ⟨t, ht⟩
          have hc := congrArg List.length ht
          rw [List.length_append, lowerName_length] at hc
          have hpl : pngSuffix.length = 4 := rfl
          rw [hpl] at hc
          have ht0 : t = [] := List.eq_nil_of_length_eq_zero (by omega)
          subst ht0
          rw [List.nil_append] at ht
          cases hn : e.name with
          | nil =>
            rw [hn] at hc
            simp at hc
          | cons a rest =>
            rw [hn] at ht
            have hhd : asciiLower a = 46 := by
              have hcons : lowerName (a :: rest) = asciiLower a :: lowerName rest := rfl
              rw [hcons, show pngSuffix = 46 :: [112, 110, 103] from rfl] at ht
              injection ht with h1 h2
              exact h1.symm
            have : a = 46 := asciiLower_eq_dot a hhd
            rw [hn, this] at h46
            exact h46 rfl
        rw [if_pos hnosuf]
      · rw [if_neg hlen]
        have h4 : 4 ≤ (lowerName e.name).length := by
          rw [lowerName_length]
          omega
        have hmapdrop : lowerName (e.name.drop (e.name.length - 4)) =
            (lowerName e.name).drop ((lowerName e.name).length - 4) := by
          rw [lowerName_length]
          exact List.map_drop _ _ _
        by_cases hsuf : pngSuffix <:+ lowerName e.name
        · have heq : lowerName (e.name.drop (e.name.length - 4)) = pngSuffix := by
            rw [hmapdrop]
            exact (drop_eq_iff_suffix _ h4).mpr hsuf
          rw [if_neg (show ¬ lowerName (e.name.drop (e.name.length - 4)) ≠ pngSuffix from
                not_not_intro heq),
              if_neg (show ¬ ¬ pngSuffix <:+ lowerName e.name from not_not_intro hsuf)]
        · have hne : lowerName (e.name.drop (e.name.length - 4)) ≠ pngSuffix := by
            rw [hmapdrop]
            intro hq
            exact hsuf ((drop_eq_iff_suffix _ h4).mp hq)
          rw [if_pos hne, if_pos hsuf]

theorem scanCount_eq (l : List DirEntry) :
    ∀ c, c ≤ MAX_IMAGES →
      scanCount c l = min (c + (l.filter keepEntry).length) MAX_IMAGES := by
  induction l with
  | nil =>
    intro c hc
    simp only [scanCount, List.filter_nil, List.length_nil, Nat.add_zero]
    omega
  | cons e rest ih =>
    intro c hc
    simp only [scanCount]
    by_cases hC : c < MAX_IMAGES
    · rw [if_pos hC]
      by_cases hk : keepEntry e
      · rw [if_pos hk, ih (c + 1) (by omega)]
        rw [List.filter_cons, if_pos (by simpa using hk)]
        simp only [List.length_cons]
        omega
      · rw [if_neg hk, ih c hc]
        rw [List.filter_cons, if_neg (by simpa using hk)]
    · rw [if_neg hC]
      have hce : c = MAX_IMAGES := by omega
      omega

/-- C7 counterexample: the single-entry listing holding the plain file
".a.png".  Its name case-insensitively ends in ".png" and is not the
name-badge file, so the claim's filter keeps it, but `scan_images`
returns 0 because the code also skips every name starting with '.'. -/
theorem scan_images_dotfile_cex :
    scan_images (some [⟨[46, 97, 46, 112, 110, 103], false⟩]) = 0 ∧
    (List.filter keepClaim [⟨[46, 97, 46, 112, 110, 103], false⟩]).length = 1 := by
  constructor <;> decide

/-- C7 amended: the scan keeps exactly the non-directory entries whose
name does not start with '.', case-insensitively ends in ".png" and is
not case-insensitively "tufty-name.png"; it stops counting at the
capacity of 200 and returns the count, and returns 0 when the directory
cannot be opened. -/
theorem scan_images_spec :
    (∀ listing, scan_images (some listing) =
      min ((listing.filter keepAmended).length) MAX_IMAGES) ∧
    scan_images none = 0 := by
  constructor
  · intro listing
    show scanCount 0 listing = _
    rw [scanCount_eq listing 0 (by norm_num [MAX_IMAGES])]
    rw [List.filter_congr (fun e _ => keepEntry_eq_keepAmended e)]
    rw [Nat.zero_add]
  · rfl

/-! ### Full period of the LCG (for the retry-loop termination of C6) -/

theorem lcgSum_succ_top (n : Nat) :
    lcgSum (n + 1) = lcgSum n + 1103515245 ^ n := by
  induction n with
  | zero => rfl
  | succ n ih =>
    calc 1 + 1103515245 * lcgSum (n + 1)
        = 1 + 1103515245 * (lcgSum n + 1103515245 ^ n) := by rw [ih]
      _ = (1 + 1103515245 * lcgSum n) + 1103515245 ^ (n + 1) := by
          rw [pow_succ]
          ring
      _ = lcgSum (n + 1) + 1103515245 ^ (n + 1) := rfl

theorem lcgSum_add (m n : Nat) :
    lcgSum (m + n) = lcgSum m + 1103515245 ^ m * lcgSum n := by
  induction n with
  | zero => simp [lcgSum]
  | succ n ih =>
    rw [← Nat.add_assoc, lcgSum_succ_top, ih, lcgSum_succ_top, pow_add]
    ring

theorem lcgSum_two_mul (n : Nat) :
    lcgSum (2 * n) = lcgSum n * (1 + 1103515245 ^ n) := by
  rw [Nat.two_mul, lcgSum_add]
  ring

theorem lcgSum_mod_two (n : Nat) : lcgSum n % 2 = n % 2 := by
  induction n with
  | zero => rfl
  | succ n ih =>
    show (1 + 1103515245 * lcgSum n) % 2 = (n + 1) % 2
    omega

theorem lcg_pow_mod_four (n : Nat) : 1103515245 ^ n % 4 = 1 := by
  induction n with
  | zero => rfl
  | succ n ih =>
    rw [pow_succ, Nat.mul_mod, ih]

theorem lcg_pow_succ_factor (n : Nat) :
    ∃ u, 1 + 1103515245 ^ n = 2 * u ∧ u % 2 = 1 := by
  have h4 := lcg_pow_mod_four n
  have hdm := Nat.div_add_mod (1103515245 ^ n) 4
  exact ⟨2 * (1103515245 ^ n / 4) + 1, by omega, by omega⟩

theorem pow_two_dvd_lcgSum_iff (n : Nat) :
    ∀ k, 2 ^ k ∣ lcgSum n ↔ 2 ^ k ∣ n := by
  induction n using Nat.strong_induction_on with
  | _ n ih =>
    intro k
    cases k with
    | zero => simp
    | succ k =>
      rcases Nat.even_or_odd n with he | ho
      · obtain ⟨m, hm⟩ := he
        by_cases hm0 : m = 0
        · subst hm0
          have hn0 : n = 0 := by omega
          subst hn0
          simp [lcgSum]
        · have hn2 : n = 2 * m := by omega
          obtain ⟨u, hu, huo⟩ := lcg_pow_succ_factor m
          have hS : lcgSum n = 2 * (lcgSum m * u) := by
            rw [hn2, lcgSum_two_mul, hu]
            ring
          have hcop : Nat.Coprime (2 ^ k) u :=
            Nat.Coprime.pow_left _
              ((Nat.prime_two.coprime_iff_not_dvd).mpr (by omega))
          constructor
          · intro hd
            rw [hS] at hd
            rw [pow_succ, Nat.mul_comm (2 ^ k) 2] at hd
            have h1 : 2 ^ k ∣ lcgSum m * u :=
              (Nat.mul_dvd_mul_iff_left (by omega : 0 < 2)).mp hd
            have h2 : 2 ^ k ∣ lcgSum m := hcop.dvd_of_dvd_mul_right h1
            have h3 : 2 ^ k ∣ m := (ih m (by omega) k).mp h2
            rw [hn2, pow_succ, Nat.mul_comm (2 ^ k) 2]
            exact Nat.mul_dvd_mul_left 2 h3
          · intro hd
            rw [hn2, pow_succ, Nat.mul_comm (2 ^ k) 2] at hd
            have h3 : 2 ^ k ∣ m :=
              (Nat.mul_dvd_mul_iff_left (by omega : 0 < 2)).mp hd
            have h2 : 2 ^ k ∣ lcgSum m := (ih m (by omega) k).mpr h3
            rw [hS, pow_succ, Nat.mul_comm (2 ^ k) 2]
            exact Nat.mul_dvd_mul_left 2 (h2.mul_right u)
      · have hodd : n % 2 = 1 := Nat.odd_iff.mp ho
        have hSodd : lcgSum n % 2 = 1 := by
          rw [lcgSum_mod_two]
          exact hodd
        constructor
        · intro hd
          exfalso
          have h2 : 2 ∣ lcgSum n :=
            dvd_trans (dvd_pow_self 2 (Nat.succ_ne_zero k)) hd
          omega
        · intro hd
          exfalso
          have h2 : 2 ∣ n :=
            dvd_trans (dvd_pow_self 2 (Nat.succ_ne_zero k)) hd
          omega

theorem lcg_iterate_modeq (s n : Nat) :
    lcg^[n] s ≡ 1103515245 ^ n * s + 12345 * lcgSum n [MOD 4294967296] := by
  induction n with
  | zero => simpa [lcgSum] using Nat.ModEq.refl s
  | succ n ih =>
    rw [Function.iterate_succ_apply']
    have h1 : lcg (lcg^[n] s) ≡
        lcg^[n] s * 1103515245 + 12345 [MOD 4294967296] :=
      Nat.mod_modEq _ _
    have h2 : lcg^[n] s * 1103515245 + 12345 ≡
        (1103515245 ^ n * s + 12345 * lcgSum n) * 1103515245 + 12345
        [MOD 4294967296] :=
      (ih.mul_right _).add_right _
    have h3 : (1103515245 ^ n * s + 12345 * lcgSum n) * 1103515245 + 12345 =
        1103515245 ^ (n + 1) * s + 12345 * lcgSum (n + 1) := by
      show _ = _ * s + 12345 * (1 + 1103515245 * lcgSum n)
      rw [pow_succ]
      ring
    have h4 := h1.trans h2
    rw [h3] at h4
    exact h4

theorem lcg_pow_eq (n : Nat) :
    1103515245 ^ n = 1103515244 * lcgSum n + 1 := by
  induction n with
  | zero => rfl
  | succ n ih =>
    rw [pow_succ, ih]
    show _ = 1103515244 * (1 + 1103515245 * lcgSum n) + 1
    ring

theorem lcg_iterate_fix_dvd (s d : Nat) (heq : lcg^[d] s = s) :
    4294967296 ∣ lcgSum d * (1103515244 * s + 12345) := by
  have h1 := lcg_iterate_modeq s d
  rw [heq] at h1
  have h2 : 1103515245 ^ d * s + 12345 * lcgSum d =
      lcgSum d * (1103515244 * s + 12345) + s := by
    rw [lcg_pow_eq]
    ring
  rw [h2] at h1
  have h3 : 0 + s ≡ lcgSum d * (1103515244 * s + 12345) + s
      [MOD 4294967296] := by
    simpa using h1
  have h4 := Nat.ModEq.add_right_cancel' s h3
  exact (Nat.modEq_zero_iff_dvd).mp h4.symm

theorem lcg_iterate_ne (s d : Nat) (hd1 : 0 < d) (hd2 : d < 4294967296) :
    lcg^[d] s ≠ s := by
  intro heq
  have hdvd := lcg_iterate_fix_dvd s d heq
  have hcop : Nat.Coprime (2 ^ 32) (1103515244 * s + 12345) :=
    Nat.Coprime.pow_left _
      ((Nat.prime_two.coprime_iff_not_dvd).mpr (by omega))
  have hM : (4294967296 : Nat) = 2 ^ 32 := by norm_num
  rw [hM] at hdvd
  have hS : 2 ^ 32 ∣ lcgSum d := hcop.dvd_of_dvd_mul_right hdvd
  have hd32 : 2 ^ 32 ∣ d := (pow_two_dvd_lcgSum_iff d 32).mp hS
  have hle := Nat.le_of_dvd hd1 hd32
  norm_num at hle
  omega

theorem lcg_iterate_lt (s n : Nat) (hs : s < 4294967296) :
    lcg^[n] s < 4294967296 := by
  cases n with
  | zero => exact hs
  | succ n =>
    rw [Function.iterate_succ_apply']
    exact lcg_lt _

theorem lcg_orbit_covers (s t : Nat) (hs : s < 4294967296)
    (ht : t < 4294967296) :
    ∃ n, n < 4294967296 ∧ lcg^[n] s = t := by
  have key : ∀ a b : Fin 4294967296, a.1 ≤ b.1 →
      lcg^[a.1] s = lcg^[b.1] s → a = b := by
    intro a b hab hv
    have hsplit : lcg^[b.1] s = lcg^[b.1 - a.1] (lcg^[a.1] s) := by
      rw [← Function.iterate_add_apply]
      congr 1
      omega
    by_cases hzero : b.1 - a.1 = 0
    · exact Fin.ext (by omega)
    · exfalso
      apply lcg_iterate_ne (lcg^[a.1] s) (b.1 - a.1) (by omega)
        (by omega)
      rw [← hsplit, ← hv]
  have hinj : Function.Injective
      (fun n : Fin 4294967296 =>
        (⟨lcg^[n.1] s, lcg_iterate_lt s n.1 hs⟩ : Fin 4294967296)) := by
    intro i j hij
    have hv : lcg^[i.1] s = lcg^[j.1] s := congrArg Fin.val hij
    rcases Nat.le_total i.1 j.1 with hle | hle
    · exact key i j hle hv
    · exact (key j i hle hv.symm).symm
  have hsurj := Finite.injective_iff_surjective.mp hinj
  obtain ⟨n, hn⟩ := hsurj ⟨t, ht⟩
  exact ⟨n.1, n.2, congrArg Fin.val hn⟩

theorem exists_good_draw (s0 count current : Nat) (h2 : 2 ≤ count) :
    ∃ n, 1 ≤ n ∧ n ≤ 4294967296 ∧
      ((lcg^[n] s0 >>> 16) &&& 0x7FFF) % count ≠ current := by
  by_cases hc0 : current = 0
  · obtain ⟨n, hnM, hn⟩ :=
      lcg_orbit_covers (lcg s0) 65536 (lcg_lt s0) (by norm_num)
    refine ⟨n + 1, by omega, by omega, ?_⟩
    rw [Function.iterate_succ_apply, hn]
    rw [show ((65536 : Nat) >>> 16) &&& 0x7FFF = 1 from by decide]
    rw [Nat.mod_eq_of_lt (by omega)]
    omega
  · obtain ⟨n, hnM, hn⟩ :=
      lcg_orbit_covers (lcg s0) 0 (lcg_lt s0) (by norm_num)
    refine ⟨n + 1, by omega, by omega, ?_⟩
    rw [Function.iterate_succ_apply, hn]
    rw [show ((0 : Nat) >>> 16) &&& 0x7FFF = 0 from by decide]
    rw [Nat.zero_mod]
    omega

theorem pickNextAux_some :
    ∀ fuel seed count current, 0 < count →
      (∃ n, 1 ≤ n ∧ n ≤ fuel ∧
        ((lcg^[n] seed >>> 16) &&& 0x7FFF) % count ≠ current) →
      ∃ j s2, pickNextAux fuel seed count current = some (j, s2) ∧
        j < count ∧ j ≠ current := by
  intro fuel
  induction fuel with
  | zero =>
    intro seed count current hc hex
    obtain ⟨n, hn1, hn2, -⟩ := hex
    omega
  | succ f ih =>
    intro seed count current hc hex
    simp only [pickNextAux]
    by_cases hbad : (fast_rand seed).2 % count = current
    · rw [if_pos hbad]
      obtain ⟨n, hn1, hn2, hgood⟩ := hex
      have hbad' : ((lcg seed >>> 16) &&& 0x7FFF) % count = current := hbad
      have hn1' : n ≠ 1 := by
        intro h1
        rw [h1, Function.iterate_one] at hgood
        exact hgood hbad'
      apply ih (fast_rand seed).1 count current hc
      refine ⟨n - 1, by omega, by omega, ?_⟩
      have hsh : lcg^[n - 1] (lcg seed) = lcg^[n] seed := by
        rw [← Function.iterate_succ_apply]
        congr 1
        omega
      rw [show (fast_rand seed).1 = lcg seed from rfl, hsh]
      exact hgood
    · rw [if_neg hbad]
      exact ⟨_, _, rfl, Nat.mod_lt _ hc, hbad⟩

/-- The retry loop of the image advance always succeeds for a catalog of
at least two entries: some draw within a full LCG period escapes the
current index. -/
theorem advance_image_retry (seed count current : Nat) (h2 : 2 ≤ count) :
    ∃ j s2, advance_image count current seed = some (j, s2) ∧
      j < count ∧ j ≠ current := by
  obtain ⟨n, hn1, hn2, hgood⟩ := exists_good_draw seed count current h2
  have hfuel : PICK_FUEL = 4294967297 := rfl
  obtain ⟨j, s2, hres, hj1, hj2⟩ :=
    pickNextAux_some PICK_FUEL seed count current (by omega)
      ⟨n, hn1, by omega, hgood⟩
  refine ⟨j, s2, ?_, hj1, hj2⟩
  rw [advance_image, if_pos (by omega)]
  exact hres

/-- C6: the next-image selection contract: with exactly one image the
index (and generator state) is left unchanged; with at least two images
the retry loop terminates and returns an index in [0, count) different
from the current one. -/
theorem pick_next_contract (seed count current : Nat) :
    (count = 1 → advance_image count current seed = some (current, seed)) ∧
    (2 ≤ count →
      ∃ j s2, advance_image count current seed = some (j, s2) ∧
        j < count ∧ j ≠ current) := by
  constructor
  · intro h1
    subst h1
    rfl
  · intro h2
    exact advance_image_retry seed count current h2

/-- Witness for C6: a one-image catalog keeps index 5, and a two-image
catalog at index 0 yields a valid different index. -/
theorem pick_next_contract_witness :
    advance_image 1 5 7 = some (5, 7) ∧
    (∃ j s2, advance_image 2 0 0 = some (j, s2) ∧ j < 2 ∧ j ≠ 0) :=
  ⟨(pick_next_contract 7 1 5).1 rfl, (pick_next_contract 0 2 0).2 (by decide)⟩

/-- C5 counterexample: with catalog size 3, current index 0 and main-loop
generator state 1, the life-toggle episode does enter the Game of Life
and does return to the slideshow, but the image index shown after the
return is 2, not the index 0 held before entry: the bottom-of-loop
"pick random next image" block runs right after `run_game_of_life`
returns, so the index is NOT unchanged. -/
theorem life_exit_changes_index_cex :
    (lifeToggleSession 3 0 1 0 (fun _ => true)).1 = Mode.GameOfLife ∧
    (lifeToggleSession 3 0 1 0 (fun _ => true)).2.2.1 = Mode.Slideshow ∧
    (lifeToggleSession 3 0 1 0 (fun _ => true)).2.2.2 = some (2, 1103527590) ∧
    (2 : Nat) ≠ 0 := by
  refine ⟨rfl, rfl, ?_, by decide⟩
  show advance_image 3 0 1 = some (2, 1103527590)
  have hfuel : PICK_FUEL = 4294967296 + 1 := rfl
  rw [advance_image, if_pos (by norm_num), hfuel]
  have hstep : ∀ f seed, pickNextAux (f + 1) seed 3 0 =
      (if (fast_rand seed).2 % 3 = 0 then pickNextAux f (fast_rand seed).1 3 0
       else some ((fast_rand seed).2 % 3, (fast_rand seed).1)) :=
    fun f seed => rfl
  rw [hstep, if_neg (by decide)]
  decide

/-- C5 amended: pressing the life-toggle in the slideshow (catalog size 3,
current index 0) enters the Game of Life with a freshly re-initialized
engine (the next buffer is entirely dead, and the current buffer is dead
everywhere outside the freshly drawn seed cells, both buffers having been
cleared before seeding); the episode then returns to the slideshow, after
which the bottom-of-loop advance replaces the index by one in [0, 3) that
differs from the index 0 held before entry (rather than leaving it
unchanged). -/
theorem life_toggle_session_amended (golSeed seedMain : Nat)
    (btn : Nat → Bool) :
    (lifeToggleSession 3 0 seedMain golSeed btn).1 = Mode.GameOfLife ∧
    (lifeToggleSession 3 0 seedMain golSeed btn).2.1 =
      runLifeAux LIFE_FRAMES btn (init_life_grid golSeed) ∧
    (∀ i, (init_life_grid golSeed).g1 i = 0) ∧
    (∀ i, i ∉ seedDrawList INITIAL_DOTS golSeed →
      (init_life_grid golSeed).g0 i = 0) ∧
    (lifeToggleSession 3 0 seedMain golSeed btn).2.2.1 = Mode.Slideshow ∧
    (∃ j s2, (lifeToggleSession 3 0 seedMain golSeed btn).2.2.2 =
      some (j, s2) ∧ j < 3 ∧ j ≠ 0) := by
  refine ⟨rfl, rfl, fun i => rfl, ?_, rfl, ?_⟩
  · intro i hnm
    rw [init_g0_apply, if_neg hnm]
  · obtain ⟨j, s2, hres, hj1, hj2⟩ :=
      advance_image_retry seedMain 3 0 (by omega)
    exact ⟨j, s2, hres, hj1, hj2⟩

/-- Witness for C5 (amended form) at main seed 1, engine seed 0: the cell
index 8480 lies outside the grid's drawable interior, so it is never
drawn and stays dead, and the post-exit advance yields an index in [0, 3)
different from 0. -/
theorem life_toggle_session_amended_witness :
    (8480 : Nat) ∉ seedDrawList INITIAL_DOTS 0 ∧
    (init_life_grid 0).g0 8480 = 0 ∧
    (∃ j s2, (lifeToggleSession 3 0 1 0 (fun _ => true)).2.2.2 =
      some (j, s2) ∧ j < 3 ∧ j ≠ 0) := by
  have hnm : (8480 : Nat) ∉ seedDrawList INITIAL_DOTS 0 := by
    intro hmem
    have h := seedDrawList_mem_interior _ _ _ hmem
    unfold LIFE_X LIFE_Y at h
    omega
  refine ⟨hnm, ?_, ?_⟩
  · exact (life_toggle_session_amended 0 1 (fun _ => true)).2.2.2.1 8480 hnm
  · exact (life_toggle_session_amended 0 1 (fun _ => true)).2.2.2.2.2
